import Mathlib

/-!
Verification development for the `former` repository (`former/modules.py`):
multi-head self-attention (`SelfAttention`) and the transformer block
(`TransformerBlock`).

Two complementary shallow embeddings are used.

* A functional model over real numbers: a tensor of shape (b, t, e) is a
  function `Fin b → Fin t → Fin e → ℝ`.  The fold of the head dimension into
  the batch dimension (`view(b*h, t, e)` in the source) is rendered by a
  separate head index, and the merge back (`view(b, t, h*e)`) by the row-major
  encoding `hd * emb + i` of the flat feature index, exactly the layout
  `contiguous().view` produces.  The IEEE value `-inf` written by the causal
  mask (and absorbed by `exp` during softmax, `exp(-inf) = 0`) is rendered by
  `Option ℝ` with `none` for `-inf` and `expO none = 0`.

* A shape model: `torch` shape dynamics of every operator used by the source
  (`Linear`, `view`, `transpose`, `bmm`, `softmax`, `LayerNorm`, residual
  add), with `Except` for the fatal shape errors and the two `assert`
  statements of `SelfAttention.forward`.

Construction-time validity (`__init__`) is modelled over ℤ: creating a
`torch` tensor with a negative dimension raises, any nonnegative dimension
(including 0) succeeds.
-/

/-- A dense (b, t, e) tensor of reals. -/
def Tensor3 (b t e : ℕ) : Type := Fin b → Fin t → Fin e → ℝ

namespace Former

noncomputable section

/-- `nn.Linear(m, n, bias=False)` applied along the last dimension:
`y[o] = Σ_i W[o, i] * x[i]` per (batch, position). -/
def linearNoBias {b t m n : ℕ} (W : Fin n → Fin m → ℝ) (x : Tensor3 b t m) :
    Tensor3 b t n :=
  fun bi ti o => ∑ i, W o i * x bi ti i

/-- `nn.Linear(m, n)` with bias, applied along the last dimension. -/
def linearBias {b t m n : ℕ} (W : Fin n → Fin m → ℝ) (bias : Fin n → ℝ)
    (x : Tensor3 b t m) : Tensor3 b t n :=
  fun bi ti o => (∑ i, W o i * x bi ti i) + bias o

/-- Row-major flat index of feature `i` of head `hd`: the source's
`.view(b, t, h, e)` of a (b, t, h*e) tensor places head `hd`, feature `i`
at flat position `hd * emb + i`. -/
def headIdx {heads emb : ℕ} (hd : Fin heads) (i : Fin emb) :
    Fin (heads * emb) :=
  ⟨hd.1 * emb + i.1, by
    calc hd.1 * emb + i.1 < hd.1 * emb + emb := Nat.add_lt_add_left i.2 _
      _ = (hd.1 + 1) * emb := (Nat.succ_mul _ _).symm
      _ ≤ heads * emb := Nat.mul_le_mul_right _ (Nat.succ_le_of_lt hd.2)⟩

/-- The learned parameters of `SelfAttention(emb, heads, mask)`:
three E → H·E projections without bias, the H·E → E unifying projection
with bias, and the causal-mask flag. -/
structure SAParams (emb heads : ℕ) : Type where
  tokeys : Fin (heads * emb) → Fin emb → ℝ
  toqueries : Fin (heads * emb) → Fin emb → ℝ
  tovalues : Fin (heads * emb) → Fin emb → ℝ
  unifyW : Fin emb → Fin (heads * emb) → ℝ
  unifyB : Fin emb → ℝ
  mask : Bool

/-- One of the three projections, reshaped per head: the source's
`self.tokeys(x).view(b, t, h, e)` followed by the fold of `h` into the
batch dimension.  Slice `(bi, hd)` holds the (t, e) matrix of head `hd`. -/
def heads4 {b t emb heads : ℕ} (W : Fin (heads * emb) → Fin emb → ℝ)
    (x : Tensor3 b t emb) : Fin b → Fin heads → Fin t → Fin emb → ℝ :=
  fun bi hd ti i => ∑ k, W (headIdx hd i) k * x bi ti k

/-- Raw attention scores `torch.bmm(queries, keys.transpose(1, 2))` after
the source's `queries = queries / math.sqrt(e)` rescaling (queries only). -/
def rawDot {b t emb heads : ℕ} (p : SAParams emb heads) (x : Tensor3 b t emb) :
    Fin b → Fin heads → Fin t → Fin t → ℝ :=
  fun bi hd i j =>
    ∑ k, (heads4 p.toqueries x bi hd i k / Real.sqrt emb) *
      heads4 p.tokeys x bi hd j k

/-- Modelled from the spec: `util.mask_` is imported from `former/util.py`,
which is not among the provided source files.  Per the spec, the causal mask
sets every score at row `i`, column `j > i` to negative infinity before
normalization (with `mask_diagonal=False` the diagonal stays visible; with
`mask_diagonal=True` the diagonal is masked as well).  `-inf` is rendered by
`none`. -/
def mask_ {t : ℕ} (dot : Fin t → Fin t → ℝ) (maskDiagonal : Bool) :
    Fin t → Fin t → Option ℝ :=
  fun i j =>
    if (if maskDiagonal then i ≤ j else i < j) then none else some (dot i j)

/-- The score matrix fed to softmax: masked by `mask_(dot, -inf, False)`
when `self.mask` is set, unmasked otherwise. -/
def maskedDot {b t emb heads : ℕ} (p : SAParams emb heads)
    (x : Tensor3 b t emb) : Fin b → Fin heads → Fin t → Fin t → Option ℝ :=
  fun bi hd i j =>
    if p.mask then mask_ (rawDot p x bi hd) false i j
    else some (rawDot p x bi hd i j)

/-- `exp` extended to the masked scores: `exp(-inf) = 0` in IEEE arithmetic. -/
def expO : Option ℝ → ℝ
  | none => 0
  | some a => Real.exp a

/-- `F.softmax(dot, dim=2)`: row-wise softmax over the (possibly masked)
score row. -/
def softmaxRow {t : ℕ} (r : Fin t → Option ℝ) : Fin t → ℝ :=
  fun j => expO (r j) / ∑ k, expO (r k)

/-- Post-softmax attention weights: entry `(i, j)` of slice `(bi, hd)`. -/
def attWeights {b t emb heads : ℕ} (p : SAParams emb heads)
    (x : Tensor3 b t emb) : Fin b → Fin heads → Fin t → Fin t → ℝ :=
  fun bi hd i => softmaxRow (maskedDot p x bi hd i)

/-- `torch.bmm(dot, values)`: the attention-weighted combination of the
value vectors, per head. -/
def attOut {b t emb heads : ℕ} (p : SAParams emb heads) (x : Tensor3 b t emb) :
    Fin b → Fin heads → Fin t → Fin emb → ℝ :=
  fun bi hd i k =>
    ∑ j, attWeights p x bi hd i j * heads4 p.tovalues x bi hd j k

/-- The source's `out.transpose(1, 2).contiguous().view(b, t, h * e)`:
flat feature index `f` of the merged tensor reads head `f / emb`,
feature `f % emb`. -/
def mergeHeads {b t emb heads : ℕ}
    (y : Fin b → Fin heads → Fin t → Fin emb → ℝ) :
    Fin b → Fin t → Fin (heads * emb) → ℝ :=
  fun bi ti f => y bi (Fin.divNat f) ti (Fin.modNat f)

/-- `SelfAttention.forward`: project to per-head keys/queries/values, scale
the queries by `1/sqrt(e)`, take row-wise softmax of the (optionally
causally masked) score matrix, combine the values, merge the heads and
apply the unifying projection. -/
def SelfAttention.forward {b t emb heads : ℕ} (p : SAParams emb heads)
    (x : Tensor3 b t emb) : Tensor3 b t emb :=
  linearBias p.unifyW p.unifyB (mergeHeads (attOut p x))

/-- The spec's conventional scaling, for comparison with `rawDot`: both the
queries and the keys divided by the fourth root of `e` before the batched
dot product. -/
def rawDotFourthRoot {b t emb heads : ℕ} (p : SAParams emb heads)
    (x : Tensor3 b t emb) : Fin b → Fin heads → Fin t → Fin t → ℝ :=
  fun bi hd i j =>
    ∑ k, (heads4 p.toqueries x bi hd i k / Real.sqrt (Real.sqrt emb)) *
      (heads4 p.tokeys x bi hd j k / Real.sqrt (Real.sqrt emb))

/-- The learned parameters of one `nn.LayerNorm(emb)` instance: elementwise
affine weight `gamma`, bias `beta`, and the numerical-stability constant
`eps` (`torch` constructs it with `eps = 1e-5`). -/
structure LNParams (e : ℕ) : Type where
  gamma : Fin e → ℝ
  beta : Fin e → ℝ
  eps : ℝ

/-- `nn.LayerNorm(e)` forward: per (batch, position), standardize across the
feature axis with the biased variance, then apply the learned affine map:
`gamma * (x - mean) / sqrt(var + eps) + beta`. -/
def layerNorm {b t e : ℕ} (ln : LNParams e) (x : Tensor3 b t e) :
    Tensor3 b t e :=
  fun bi ti i =>
    ln.gamma i *
        ((x bi ti i - (∑ k, x bi ti k) / e) /
          Real.sqrt ((∑ k, (x bi ti k - (∑ j, x bi ti j) / e) ^ 2) / e +
            ln.eps)) +
      ln.beta i

/-- `nn.Dropout(p)` in training mode with the injected uniform noise source
`u` (one draw per element): an element is zeroed when its draw falls below
`p`, survivors are rescaled by `1 / (1 - p)`.  With `p = 0` and draws in
`[0, 1)` this is the identity, which is also the inference-mode semantics. -/
def dropout {b t e : ℕ} (p : ℝ) (u : Tensor3 b t e) (x : Tensor3 b t e) :
    Tensor3 b t e :=
  fun bi ti i => if u bi ti i < p then 0 else x bi ti i / (1 - p)

/-- `nn.ReLU()` applied elementwise. -/
def relu3 {b t e : ℕ} (x : Tensor3 b t e) : Tensor3 b t e :=
  fun bi ti i => max (x bi ti i) 0

/-- Elementwise sum of two tensors (the residual additions of the block). -/
def addT {b t e : ℕ} (x y : Tensor3 b t e) : Tensor3 b t e :=
  fun bi ti i => x bi ti i + y bi ti i

/-- The learned parameters of `TransformerBlock(emb, heads, mask, seq_length,
ff_hidden_mult, dropout)`: the owned `SelfAttention`, the two layer norms,
the two feed-forward projections (both with bias), and the drop
probability.  `seq_length` is accepted by the constructor but never stored:
see `TransformerBlock.init`. -/
structure TBParams (emb heads ffMult : ℕ) : Type where
  attention : SAParams emb heads
  norm1 : LNParams emb
  norm2 : LNParams emb
  ff1W : Fin (ffMult * emb) → Fin emb → ℝ
  ff1B : Fin (ffMult * emb) → ℝ
  ff2W : Fin emb → Fin (ffMult * emb) → ℝ
  ff2B : Fin emb → ℝ
  dropoutP : ℝ

/-- The block's `self.ff`: `nn.Sequential(nn.Linear(emb, ff_hidden_mult*emb),
nn.ReLU(), nn.Linear(ff_hidden_mult*emb, emb))`. -/
def TransformerBlock.ff {b t emb heads ffMult : ℕ}
    (P : TBParams emb heads ffMult) (x : Tensor3 b t emb) : Tensor3 b t emb :=
  linearBias P.ff2W P.ff2B (relu3 (linearBias P.ff1W P.ff1B x))

/-- `TransformerBlock.forward`, line by line from the source.  The two
`self.do(x)` calls draw fresh dropout noise; the draws are injected as `u1`
and `u2`. -/
def TransformerBlock.forward {b t emb heads ffMult : ℕ}
    (P : TBParams emb heads ffMult) (u1 u2 : Tensor3 b t emb)
    (x : Tensor3 b t emb) : Tensor3 b t emb :=
  let attended := SelfAttention.forward P.attention x
  let x1 := dropout P.dropoutP u1 (layerNorm P.norm1 (addT attended x))
  let fedforward := TransformerBlock.ff P x1
  dropout P.dropoutP u2 (layerNorm P.norm2 (addT fedforward x1))

/-- The spec's step-by-step pipeline for the block, written from § 4.2 of
the spec: `attended = MultiHeadAttention(X)`; `X1 = Dropout(Normalize(
attended + X))`; `fed = FeedForward(X1)` with `FeedForward` spelled out as
two linear projections with a rectified-linear nonlinearity in between;
result `Dropout(Normalize(fed + X1))`. -/
def blockSpecPipeline {b t emb heads ffMult : ℕ}
    (P : TBParams emb heads ffMult) (u1 u2 : Tensor3 b t emb)
    (x : Tensor3 b t emb) : Tensor3 b t emb :=
  let attended := SelfAttention.forward P.attention x
  let x1 := dropout P.dropoutP u1 (layerNorm P.norm1 (addT attended x))
  let fed := linearBias P.ff2W P.ff2B
    (relu3 (linearBias P.ff1W P.ff1B x1))
  dropout P.dropoutP u2 (layerNorm P.norm2 (addT fed x1))

/-- The collection of weight values handed to `TransformerBlock.init`
(weight initialization is an external collaborator; the constructor is
modelled as receiving the values it would draw). -/
structure TBWeights (emb heads ffMult : ℕ) : Type where
  tokeys : Fin (heads * emb) → Fin emb → ℝ
  toqueries : Fin (heads * emb) → Fin emb → ℝ
  tovalues : Fin (heads * emb) → Fin emb → ℝ
  unifyW : Fin emb → Fin (heads * emb) → ℝ
  unifyB : Fin emb → ℝ
  norm1G : Fin emb → ℝ
  norm1B : Fin emb → ℝ
  norm2G : Fin emb → ℝ
  norm2B : Fin emb → ℝ
  ff1W : Fin (ffMult * emb) → Fin emb → ℝ
  ff1B : Fin (ffMult * emb) → ℝ
  ff2W : Fin emb → Fin (ffMult * emb) → ℝ
  ff2B : Fin emb → ℝ

/-- The `eps` constant `nn.LayerNorm` is constructed with by default. -/
def layerNormDefaultEps : ℝ := 1 / 100000

/-- `TransformerBlock.__init__`: assembles the owned submodules from the
configuration and the drawn weights.  The `seqLength` argument is accepted,
as in the source, and used nowhere. -/
def TransformerBlock.init (emb heads ffMult : ℕ) (mask : Bool)
    (seqLength : ℕ) (dropoutP : ℝ) (w : TBWeights emb heads ffMult) :
    TBParams emb heads ffMult :=
  { attention :=
      { tokeys := w.tokeys, toqueries := w.toqueries, tovalues := w.tovalues
        unifyW := w.unifyW, unifyB := w.unifyB, mask := mask }
    norm1 := { gamma := w.norm1G, beta := w.norm1B,
               eps := layerNormDefaultEps }
    norm2 := { gamma := w.norm2G, beta := w.norm2B,
               eps := layerNormDefaultEps }
    ff1W := w.ff1W, ff1B := w.ff1B, ff2W := w.ff2W, ff2B := w.ff2B
    dropoutP := dropoutP }

end

/-! ### Shape model

`torch` shape dynamics of the operators the source uses, with `Except` for
the fatal errors: the failed `assert` statements of `SelfAttention.forward`
and the shape preconditions of the library operators themselves. -/

/-- A tensor shape: the list of dimension sizes. -/
abbrev Shape : Type := List ℕ

/-- Message of the source's first assert:
`Input embedding dim (e) should match layer embedding dim (emb)`. -/
def embDimErr : String :=
  "Input embedding dim should match layer embedding dim"

/-- Message of the source's second assert:
`Matrix has size ..., expected (b*h, t, t).` -/
def dotSizeErr : String := "Matrix has size other than expected b*h, t, t"

/-- `b, t, e = x.size()` fails unless the tensor has exactly three
dimensions. -/
def unpack3Err : String := "not enough values to unpack"

/-- `nn.Linear(inF, outF)` forward on a shape: requires the last dimension
to equal `inF` and replaces it by `outF`. -/
def linearShape (inF outF : ℕ) (s : Shape) : Except String Shape :=
  match s.reverse with
  | [] => .error "linear applied to a scalar"
  | d :: rest =>
    if d = inF then .ok (outF :: rest).reverse
    else .error "linear input features mismatch"

/-- `x.view(target)` (after `contiguous()`): requires the element counts to
agree and reinterprets the shape. -/
def viewShape (s target : Shape) : Except String Shape :=
  if s.prod = target.prod then .ok target else .error "view size mismatch"

/-- `x.transpose(i, j)`: swaps two dimensions. -/
def transposeShape (i j : ℕ) (s : Shape) : Except String Shape :=
  if i < s.length ∧ j < s.length then
    .ok ((s.set i (s.getD j 0)).set j (s.getD i 0))
  else .error "transpose dimension out of range"

/-- `torch.bmm`: batched matrix product of two 3-tensors with equal batch
dimension and matching inner dimension. -/
def bmmShape (s1 s2 : Shape) : Except String Shape :=
  match s1, s2 with
  | [a, m, k], [a2, k2, n] =>
    if a = a2 ∧ k = k2 then .ok [a, m, n] else .error "bmm size mismatch"
  | _, _ => .error "bmm expects 3-dimensional tensors"

/-- `F.softmax(x, dim)` preserves the shape. -/
def softmaxShape (s : Shape) : Except String Shape := .ok s

/-- `util.mask_` writes in place and preserves the shape. -/
def maskShape (s : Shape) : Except String Shape := .ok s

/-- Elementwise (residual) addition: the two shapes must agree. -/
def addShape (s1 s2 : Shape) : Except String Shape :=
  if s1 = s2 then .ok s1 else .error "add size mismatch"

/-- `nn.LayerNorm(n)` forward: requires the last dimension to equal `n`
and preserves the shape. -/
def layerNormShape (n : ℕ) (s : Shape) : Except String Shape :=
  match s.reverse with
  | [] => .error "layer norm applied to a scalar"
  | d :: _ => if d = n then .ok s else .error "layer norm size mismatch"

/-- `nn.Dropout(p)` preserves the shape. -/
def dropoutShape (s : Shape) : Except String Shape := .ok s

/-- `nn.ReLU()` preserves the shape. -/
def reluShape (s : Shape) : Except String Shape := .ok s

/-- `SelfAttention.forward` at the shape level, following the source line by
line: unpack `b, t, e`, assert `e == emb`, project and reshape keys,
queries and values, fold the heads into the batch dimension, compute the
score matrix, assert its shape is `(b*h, t, t)`, mask and softmax, combine
the values, unfold and merge the heads, and unify. -/
def saShape (emb heads : ℕ) (xs : Shape) : Except String Shape := do
  match xs with
  | [b, t, e] =>
    unless e = emb do throw embDimErr
    let k1 ← linearShape emb (emb * heads) [b, t, e]
    let k2 ← viewShape k1 [b, t, heads, e]
    let q1 ← linearShape emb (emb * heads) [b, t, e]
    let q2 ← viewShape q1 [b, t, heads, e]
    let v1 ← linearShape emb (emb * heads) [b, t, e]
    let v2 ← viewShape v1 [b, t, heads, e]
    let k3 ← transposeShape 1 2 k2
    let keys ← viewShape k3 [b * heads, t, e]
    let q3 ← transposeShape 1 2 q2
    let queries ← viewShape q3 [b * heads, t, e]
    let v3 ← transposeShape 1 2 v2
    let values ← viewShape v3 [b * heads, t, e]
    let kT ← transposeShape 1 2 keys
    let dot ← bmmShape queries kT
    unless dot = [b * heads, t, t] do throw dotSizeErr
    let dotM ← maskShape dot
    let dotS ← softmaxShape dotM
    let out1 ← bmmShape dotS values
    let out2 ← viewShape out1 [b, heads, t, e]
    let out3 ← transposeShape 1 2 out2
    let out4 ← viewShape out3 [b, t, heads * e]
    linearShape (heads * emb) emb out4
  | _ => throw unpack3Err

/-- `TransformerBlock.forward` at the shape level: attention, residual add,
layer norm, dropout, the two feed-forward projections around the
rectified-linear nonlinearity, residual add, layer norm, dropout. -/
def blockShape (emb heads ffMult : ℕ) (xs : Shape) : Except String Shape := do
  let attended ← saShape emb heads xs
  let r1 ← addShape attended xs
  let n1 ← layerNormShape emb r1
  let x1 ← dropoutShape n1
  let f1 ← linearShape emb (ffMult * emb) x1
  let f2 ← reluShape f1
  let fed ← linearShape (ffMult * emb) emb f2
  let r2 ← addShape fed x1
  let n2 ← layerNormShape emb r2
  dropoutShape n2

/-! ### Construction model

`SelfAttention.__init__` and `TransformerBlock.__init__` contain no
explicit validation; the only way construction can fail is `torch` refusing
to allocate a weight tensor with a negative dimension.  Dimensions are
taken in ℤ as in Python. -/

/-- `nn.Linear(inF, outF)` construction succeeds exactly when both requested
weight dimensions are nonnegative (a negative dimension raises at tensor
allocation; zero-sized tensors are legal). -/
def Linear.initOk (inF outF : ℤ) : Prop := 0 ≤ inF ∧ 0 ≤ outF

/-- `nn.LayerNorm(n)` construction succeeds exactly when the normalized
shape is nonnegative. -/
def LayerNorm.initOk (n : ℤ) : Prop := 0 ≤ n

instance (inF outF : ℤ) : Decidable (Linear.initOk inF outF) :=
  inferInstanceAs (Decidable (_ ∧ _))

instance (n : ℤ) : Decidable (LayerNorm.initOk n) :=
  inferInstanceAs (Decidable (_ ≤ _))

/-- `SelfAttention.__init__`: constructs `nn.Linear(emb, emb*heads,
bias=False)` three times and `nn.Linear(heads*emb, emb)` once, with no
other validation. -/
def SelfAttention.initOk (emb heads : ℤ) : Prop :=
  Linear.initOk emb (emb * heads) ∧ Linear.initOk emb (emb * heads) ∧
    Linear.initOk emb (emb * heads) ∧ Linear.initOk (heads * emb) emb

/-- `TransformerBlock.__init__`: constructs the owned `SelfAttention`, two
`nn.LayerNorm(emb)`, and the feed-forward pair `nn.Linear(emb,
ff_hidden_mult*emb)`, `nn.Linear(ff_hidden_mult*emb, emb)`, with no other
validation of `emb` or `heads`. -/
def TransformerBlock.initOk (emb heads ffMult : ℤ) : Prop :=
  SelfAttention.initOk emb heads ∧ LayerNorm.initOk emb ∧
    LayerNorm.initOk emb ∧ Linear.initOk emb (ffMult * emb) ∧
    Linear.initOk (ffMult * emb) emb

instance (emb heads : ℤ) : Decidable (SelfAttention.initOk emb heads) :=
  inferInstanceAs (Decidable (_ ∧ _))

instance (emb heads ffMult : ℤ) :
    Decidable (TransformerBlock.initOk emb heads ffMult) :=
  inferInstanceAs (Decidable (_ ∧ _))

/-! ### Construction configuration (projection widths and bias flags) -/

/-- The static configuration of one `nn.Linear` module. -/
structure LinearCfg : Type where
  inFeatures : ℕ
  outFeatures : ℕ
  hasBias : Bool
  deriving DecidableEq

/-- The four projections `SelfAttention.__init__` creates, in source order:
to-keys, to-queries, to-values, unify-heads. -/
def SelfAttention.initCfg (emb heads : ℕ) :
    LinearCfg × LinearCfg × LinearCfg × LinearCfg :=
  (⟨emb, emb * heads, false⟩, ⟨emb, emb * heads, false⟩,
    ⟨emb, emb * heads, false⟩, ⟨heads * emb, emb, true⟩)

/-! ### Concrete instances used by witnesses and counterexamples -/

noncomputable section

/-- An all-zero noise/input tensor. -/
def tZero (b t e : ℕ) : Tensor3 b t e := fun _ _ _ => 0

/-- A 1-head, width-1 `SelfAttention` with zero weights and the causal mask
enabled. -/
def saMasked : SAParams 1 1 :=
  { tokeys := fun _ _ => 0, toqueries := fun _ _ => 0,
    tovalues := fun _ _ => 0, unifyW := fun _ _ => 0, unifyB := fun _ => 0,
    mask := true }

/-- A 1-head, width-1 `SelfAttention` with zero weights and no mask. -/
def saOpen : SAParams 1 1 :=
  { tokeys := fun _ _ => 0, toqueries := fun _ _ => 0,
    tovalues := fun _ _ => 0, unifyW := fun _ _ => 0, unifyB := fun _ => 0,
    mask := false }

/-- The 2×2 identity matrix as a projection weight (1 head, width 2). -/
def idW21 : Fin (1 * 2) → Fin 2 → ℝ := fun o i => if o.1 = i.1 then 1 else 0

/-- The 2×2 identity matrix as the unifying weight (1 head, width 2). -/
def idW12 : Fin 2 → Fin (1 * 2) → ℝ := fun o f => if o.1 = f.1 then 1 else 0

/-- A 1-head, width-2 `SelfAttention` with identity weights, zero bias and
no mask.  On sequences of length 1 it is the identity function. -/
def saId : SAParams 2 1 :=
  { tokeys := idW21, toqueries := idW21, tovalues := idW21,
    unifyW := idW12, unifyB := fun _ => 0, mask := false }

/-- First feed-forward weight realizing the identity on width 2 with
hidden width 8: rows 0-1 copy the input, rows 2-3 copy its negation,
rows 4-7 are zero. -/
def ffIdW1 : Fin (4 * 2) → Fin 2 → ℝ :=
  fun o i => if o.1 = i.1 then 1 else if o.1 = i.1 + 2 then -1 else 0

/-- Second feed-forward weight completing the identity:
`relu(x) - relu(-x) = x`. -/
def ffIdW2 : Fin 2 → Fin (4 * 2) → ℝ :=
  fun o f => if f.1 = o.1 then 1 else if f.1 = o.1 + 2 then -1 else 0

/-- A layer norm with unit weight and zero bias at a chosen `eps`. -/
def lnPlain (e : ℕ) (eps : ℝ) : LNParams e :=
  { gamma := fun _ => 1, beta := fun _ => 0, eps := eps }

/-- A width-2 `TransformerBlock` whose attention and feed-forward sublayers
are identity functions (on length-1 sequences), with unit/zero norm affine
parameters, drop probability 0, and a chosen norm `eps`. -/
def pId (eps : ℝ) : TBParams 2 1 4 :=
  { attention := saId, norm1 := lnPlain 2 eps, norm2 := lnPlain 2 eps,
    ff1W := ffIdW1, ff1B := fun _ => 0, ff2W := ffIdW2, ff2B := fun _ => 0,
    dropoutP := 0 }

/-- The (1, 1, 2) tensor with features `(a, -a)`. -/
def vecPM (a : ℝ) : Tensor3 1 1 2 := fun _ _ i => if i.1 = 0 then a else -a

/-- All-zero weights for a small `TransformerBlock`. -/
def wZero : TBWeights 1 1 4 :=
  { tokeys := fun _ _ => 0, toqueries := fun _ _ => 0,
    tovalues := fun _ _ => 0, unifyW := fun _ _ => 0, unifyB := fun _ => 0,
    norm1G := fun _ => 0, norm1B := fun _ => 0, norm2G := fun _ => 0,
    norm2B := fun _ => 0, ff1W := fun _ _ => 0, ff1B := fun _ => 0,
    ff2W := fun _ _ => 0, ff2B := fun _ => 0 }

end

/-! ### Shape-model evaluation lemmas -/

theorem exBind_ok {α β : Type} (a : α) (f : α → Except String β) :
    (Except.ok a : Except String α) >>= f = f a := rfl

theorem exBind_err {α β : Type} (m : String) (f : α → Except String β) :
    (Except.error m : Except String α) >>= f = .error m := rfl

theorem exThrow {α : Type} (m : String) :
    (throw m : Except String α) = .error m := rfl

theorem linearShape_cons3 (inF outF a b c : ℕ) :
    linearShape inF outF [a, b, c] =
      if c = inF then .ok [a, b, outF]
      else .error "linear input features mismatch" := rfl

theorem transposeShape12_cons3 (a b c : ℕ) :
    transposeShape 1 2 [a, b, c] = .ok [a, c, b] := rfl

theorem transposeShape12_cons4 (a b c d : ℕ) :
    transposeShape 1 2 [a, b, c, d] = .ok [a, c, b, d] := rfl

theorem viewShape_ok (s target : Shape) (h : s.prod = target.prod) :
    viewShape s target = .ok target := by
  simp [viewShape, h]

theorem bmmShape_cons3 (a m k n : ℕ) :
    bmmShape [a, m, k] [a, k, n] = .ok [a, m, n] := by
  simp [bmmShape]

theorem layerNormShape_cons3 (n a b c : ℕ) :
    layerNormShape n [a, b, c] =
      if c = n then .ok [a, b, c] else .error "layer norm size mismatch" :=
  rfl

/-- `SelfAttention.forward` on a rank-3 input shape: succeeds with the input
shape iff the feature dimension matches the configured width, and the
failure is exactly the first assert's error. -/
theorem saShape_eval (emb heads b t e : ℕ) :
    saShape emb heads [b, t, e] =
      if e = emb then .ok [b, t, e] else .error embDimErr := by
  by_cases he : e = emb
  · subst he
    rw [if_pos rfl]
    have hv1 : viewShape [b, t, e * heads] [b, t, heads, e] =
        .ok [b, t, heads, e] :=
      viewShape_ok _ _ (by simp only [List.prod_cons, List.prod_nil]; ring)
    have hv2 : viewShape [b, heads, t, e] [b * heads, t, e] =
        .ok [b * heads, t, e] :=
      viewShape_ok _ _ (by simp only [List.prod_cons, List.prod_nil]; ring)
    have hv3 : viewShape [b * heads, t, e] [b, heads, t, e] =
        .ok [b, heads, t, e] :=
      viewShape_ok _ _ (by simp only [List.prod_cons, List.prod_nil]; ring)
    have hv4 : viewShape [b, t, heads, e] [b, t, heads * e] =
        .ok [b, t, heads * e] :=
      viewShape_ok _ _ (by simp only [List.prod_cons, List.prod_nil]; ring)
    simp [saShape, linearShape_cons3, transposeShape12_cons3,
      transposeShape12_cons4, bmmShape_cons3, maskShape, softmaxShape,
      hv1, hv2, hv3, hv4, exBind_ok]
  · rw [if_neg he]
    simp [saShape, he, exThrow, exBind_err]

/-- `TransformerBlock.forward` on a matching rank-3 input shape returns the
input shape. -/
theorem blockShape_eval (emb heads ffMult b t : ℕ) :
    blockShape emb heads ffMult [b, t, emb] = .ok [b, t, emb] := by
  simp [blockShape, saShape_eval, addShape, layerNormShape_cons3,
    dropoutShape, reluShape, linearShape_cons3, exBind_ok]

/-! ### Claim theorems -/

/-- C8: `SelfAttention.forward` fails fatally exactly when the input's last
dimension differs from the configured embedding width (the first assert);
when it matches, the whole pipeline succeeds with shape (b, t, e) — in
particular the intermediate score-matrix assert against (b·h, t, t) never
fires under that precondition. -/
theorem sa_fails_iff_feature_dim_mismatch (emb heads b t e : ℕ) :
    saShape emb heads [b, t, e] =
      if e = emb then .ok [b, t, e] else .error embDimErr :=
  saShape_eval emb heads b t e

/-- C2: on any input of shape (b, t, e) whose feature dimension equals the
configured embedding width, both `SelfAttention.forward` and
`TransformerBlock.forward` return a tensor of the input's shape. -/
theorem forward_shape_invariance (emb heads ffMult b t : ℕ) :
    saShape emb heads [b, t, emb] = .ok [b, t, emb] ∧
      blockShape emb heads ffMult [b, t, emb] = .ok [b, t, emb] := by
  refine ⟨?_, blockShape_eval emb heads ffMult b t⟩
  rw [saShape_eval, if_pos rfl]

/-- C5: the to-keys, to-queries and to-values projections each map the full
width E to H·E without bias, the unify-heads projection maps H·E back to E
with bias, and reshaping a projected (b, t, E·H) tensor per head yields
shape (b, t, H, E) — full width E per head. -/
theorem projections_full_width_per_head (emb heads b t : ℕ) :
    (SelfAttention.initCfg emb heads).1 = ⟨emb, heads * emb, false⟩ ∧
      (SelfAttention.initCfg emb heads).2.1 = ⟨emb, heads * emb, false⟩ ∧
      (SelfAttention.initCfg emb heads).2.2.1 = ⟨emb, heads * emb, false⟩ ∧
      (SelfAttention.initCfg emb heads).2.2.2 = ⟨heads * emb, emb, true⟩ ∧
      (linearShape emb (emb * heads) [b, t, emb]).bind
          (fun s => viewShape s [b, t, heads, emb]) =
        .ok [b, t, heads, emb] := by
  refine ⟨by simp [SelfAttention.initCfg, mul_comm],
    by simp [SelfAttention.initCfg, mul_comm],
    by simp [SelfAttention.initCfg, mul_comm],
    by simp [SelfAttention.initCfg], ?_⟩
  rw [linearShape_cons3, if_pos rfl]
  exact viewShape_ok _ _ (by simp only [List.prod_cons, List.prod_nil]; ring)

/-- C9 counterexample: embedding width 0 is non-positive, yet both
constructors succeed — there is no positivity check at construction. -/
theorem init_accepts_zero_width : ¬ 0 < (0 : ℤ) ∧
    SelfAttention.initOk 0 8 ∧ TransformerBlock.initOk 0 8 4 := by
  decide

/-- C9 amended: construction fails exactly when a negative weight-tensor
dimension is requested — `emb < 0` or `emb·heads < 0` (for the block also
`ff_hidden_mult·emb < 0`); zero width or zero head count is accepted, so
non-positive configurations do not, in general, fail. -/
theorem init_fails_iff_negative_dimension (emb heads ffMult : ℤ) :
    (SelfAttention.initOk emb heads ↔ 0 ≤ emb ∧ 0 ≤ emb * heads) ∧
      (TransformerBlock.initOk emb heads ffMult ↔
        0 ≤ emb ∧ 0 ≤ emb * heads ∧ 0 ≤ ffMult * emb) := by
  simp only [SelfAttention.initOk, TransformerBlock.initOk, Linear.initOk,
    LayerNorm.initOk, mul_comm]
  tauto

/-- C4: `TransformerBlock.forward` computes exactly the spec's fixed
sequence — attention, residual add, norm, dropout, the two feed-forward
projections around the rectified-linear nonlinearity, residual add, norm,
dropout. -/
theorem block_follows_spec_pipeline {b t emb heads ffMult : ℕ}
    (P : TBParams emb heads ffMult) (u1 u2 x : Tensor3 b t emb) :
    TransformerBlock.forward P u1 u2 x = blockSpecPipeline P u1 u2 x := rfl

/-- C10: two blocks differing only in the `seq_length` constructor argument
compute the same output on every input of any sequence length `t ≥ 1`: the
argument is never stored and never checked against `t`. -/
theorem block_independent_of_seq_length {b t emb heads ffMult : ℕ}
    (mask : Bool) (s1 s2 : ℕ) (dropoutP : ℝ) (w : TBWeights emb heads ffMult)
    (u1 u2 x : Tensor3 b t emb) (ht : 1 ≤ t) :
    TransformerBlock.forward
        (TransformerBlock.init emb heads ffMult mask s1 dropoutP w) u1 u2 x =
      TransformerBlock.forward
        (TransformerBlock.init emb heads ffMult mask s2 dropoutP w) u1 u2 x :=
  rfl

/-- Witness for C10 at `b = t = emb = heads = 1`, `seq_length` 5 vs 99. -/
theorem block_independent_of_seq_length_witness :
    TransformerBlock.forward (TransformerBlock.init 1 1 4 false 5 0 wZero)
        (tZero 1 1 1) (tZero 1 1 1) (tZero 1 1 1) =
      TransformerBlock.forward (TransformerBlock.init 1 1 4 false 99 0 wZero)
        (tZero 1 1 1) (tZero 1 1 1) (tZero 1 1 1) :=
  block_independent_of_seq_length false 5 99 0 wZero _ _ _ (by decide)

/-- C3: scaling only the queries by `1/sqrt(e)` (the source) produces the
same score matrix as scaling both queries and keys by the fourth root of
`e` (the convention the source's comment cites). -/
theorem query_scaling_equivalence {b t emb heads : ℕ}
    (p : SAParams emb heads) (x : Tensor3 b t emb) (hE : 0 < emb) :
    rawDot p x = rawDotFourthRoot p x := by
  funext bi hd i j
  refine Finset.sum_congr rfl fun k _ => ?_
  rw [div_mul_div_comm, Real.mul_self_sqrt (Real.sqrt_nonneg _),
    div_mul_eq_mul_div]

/-- Witness for C3 at `emb = 1`. -/
theorem query_scaling_equivalence_witness :
    rawDot saOpen (tZero 1 1 1) = rawDotFourthRoot saOpen (tZero 1 1 1) :=
  query_scaling_equivalence saOpen (tZero 1 1 1) (by decide)

/-- C1: with the causal mask enabled, in every batch-head slice and every
row `i` of the post-softmax attention matrix, the weight at column `j > i`
is exactly 0, and the weights over the visible columns `j ≤ i` sum to 1 —
the diagonal stays visible, so no row is fully masked and the softmax
denominator is never zero. -/
theorem causal_mask_zeroes_future_and_rows_sum_one {b t emb heads : ℕ}
    (p : SAParams emb heads) (x : Tensor3 b t emb) (hm : p.mask = true)
    (bi : Fin b) (hd : Fin heads) (i : Fin t) :
    (∀ j : Fin t, i < j → attWeights p x bi hd i j = 0) ∧
      ∑ j ∈ Finset.univ.filter (fun j : Fin t => j ≤ i),
          attWeights p x bi hd i j = 1 := by
  have hmd : ∀ j, maskedDot p x bi hd i j =
      if i < j then none else some (rawDot p x bi hd i j) := by
    intro j
    simp [maskedDot, hm, mask_]
  have hvis : ∀ j ∈ Finset.univ.filter (fun j : Fin t => j ≤ i),
      expO (maskedDot p x bi hd i j) = Real.exp (rawDot p x bi hd i j) := by
    intro j hj
    rw [hmd j, if_neg (not_lt.mpr (Finset.mem_filter.mp hj).2)]
    rfl
  have hhid : ∀ j ∈ Finset.univ.filter (fun j : Fin t => ¬ j ≤ i),
      expO (maskedDot p x bi hd i j) = 0 := by
    intro j hj
    rw [hmd j, if_pos (not_le.mp (Finset.mem_filter.mp hj).2)]
    rfl
  have hD : ∑ k, expO (maskedDot p x bi hd i k) =
      ∑ j ∈ Finset.univ.filter (fun j : Fin t => j ≤ i),
        Real.exp (rawDot p x bi hd i j) := by
    rw [← Finset.sum_filter_add_sum_filter_not Finset.univ
      (fun j : Fin t => j ≤ i) (fun k => expO (maskedDot p x bi hd i k)),
      Finset.sum_congr rfl hvis, Finset.sum_eq_zero hhid, add_zero]
  have hDpos : 0 < ∑ k, expO (maskedDot p x bi hd i k) := by
    rw [hD]
    exact Finset.sum_pos (fun j _ => Real.exp_pos _)
      ⟨i, Finset.mem_filter.mpr ⟨Finset.mem_univ i, le_refl i⟩⟩
  constructor
  · intro j hij
    show expO (maskedDot p x bi hd i j) / _ = 0
    rw [hmd j, if_pos hij]
    show (0 : ℝ) / _ = 0
    exact zero_div _
  · show ∑ j ∈ Finset.univ.filter (fun j : Fin t => j ≤ i),
        expO (maskedDot p x bi hd i j) /
          ∑ k, expO (maskedDot p x bi hd i k) = 1
    rw [← Finset.sum_div, Finset.sum_congr rfl hvis, ← hD]
    exact div_self hDpos.ne'

/-- Witness for C1: masked width-1 attention on a length-2 zero input,
row 0. -/
theorem causal_mask_witness :
    (∀ j : Fin 2, (0 : Fin 2) < j →
        attWeights saMasked (tZero 1 2 1) 0 0 0 j = 0) ∧
      ∑ j ∈ Finset.univ.filter (fun j : Fin 2 => j ≤ (0 : Fin 2)),
          attWeights saMasked (tZero 1 2 1) 0 0 0 j = 1 :=
  causal_mask_zeroes_future_and_rows_sum_one saMasked (tZero 1 2 1) rfl 0 0 0

/-- The raw scores of a position-permuted input are the permuted raw
scores: every per-position projection commutes with the permutation. -/
theorem rawDot_perm {b t emb heads : ℕ} (p : SAParams emb heads)
    (x : Tensor3 b t emb) (σ : Equiv.Perm (Fin t)) (bi : Fin b)
    (hd : Fin heads) (i j : Fin t) :
    rawDot p (fun bb tt ee => x bb (σ tt) ee) bi hd i j =
      rawDot p x bi hd (σ i) (σ j) := rfl

/-- Without the mask, the attention weights of a position-permuted input
are the permuted weights: the softmax denominator is invariant under
reindexing the columns by a bijection. -/
theorem attWeights_perm {b t emb heads : ℕ} (p : SAParams emb heads)
    (hm : p.mask = false) (x : Tensor3 b t emb) (σ : Equiv.Perm (Fin t))
    (bi : Fin b) (hd : Fin heads) (i j : Fin t) :
    attWeights p (fun bb tt ee => x bb (σ tt) ee) bi hd i j =
      attWeights p x bi hd (σ i) (σ j) := by
  have hmk : ∀ (y : Tensor3 b t emb) (i2 j2 : Fin t),
      maskedDot p y bi hd i2 j2 = some (rawDot p y bi hd i2 j2) := by
    intro y i2 j2
    simp [maskedDot, hm]
  unfold attWeights softmaxRow
  simp only [hmk, expO, rawDot_perm]
  congr 1
  exact Equiv.sum_comp σ fun k => Real.exp (rawDot p x bi hd (σ i) k)

/-- C7: with the mask disabled, self-attention is permutation-equivariant —
applying `SelfAttention.forward` to an input with its sequence positions
permuted equals permuting the positions of the output. -/
theorem unmasked_attention_permutation_equivariant {b t emb heads : ℕ}
    (p : SAParams emb heads) (hm : p.mask = false) (x : Tensor3 b t emb)
    (σ : Equiv.Perm (Fin t)) :
    SelfAttention.forward p (fun bb tt ee => x bb (σ tt) ee) =
      fun bb tt ee => SelfAttention.forward p x bb (σ tt) ee := by
  have hout : ∀ (bi : Fin b) (hd : Fin heads) (i : Fin t) (k : Fin emb),
      attOut p (fun bb tt ee => x bb (σ tt) ee) bi hd i k =
        attOut p x bi hd (σ i) k := by
    intro bi hd i k
    unfold attOut
    calc ∑ j, attWeights p (fun bb tt ee => x bb (σ tt) ee) bi hd i j *
            heads4 p.tovalues (fun bb tt ee => x bb (σ tt) ee) bi hd j k
        = ∑ j, attWeights p x bi hd (σ i) (σ j) *
            heads4 p.tovalues x bi hd (σ j) k :=
          Finset.sum_congr rfl fun j _ => by
            rw [attWeights_perm p hm x σ bi hd i j]; rfl
      _ = ∑ j, attWeights p x bi hd (σ i) j *
            heads4 p.tovalues x bi hd j k :=
          Equiv.sum_comp σ fun j =>
            attWeights p x bi hd (σ i) j * heads4 p.tovalues x bi hd j k
  funext bi ti o
  unfold SelfAttention.forward linearBias mergeHeads
  simp only [hout]

/-- Witness for C7: zero input of length 2, the transposition of the two
positions. -/
theorem unmasked_equivariance_witness :
    SelfAttention.forward saOpen
        (fun bb tt ee => tZero 1 2 1 bb (Equiv.swap 0 1 tt) ee) =
      fun bb tt ee =>
        SelfAttention.forward saOpen (tZero 1 2 1) bb (Equiv.swap 0 1 tt) ee :=
  unmasked_attention_permutation_equivariant saOpen rfl (tZero 1 2 1)
    (Equiv.swap 0 1)

/-- With drop probability 0 and noise draws in `[0, 1)`, dropout is the
identity. -/
theorem dropout_zero {b t e : ℕ} (u x : Tensor3 b t e)
    (hu : ∀ bi ti i, 0 ≤ u bi ti i) : dropout 0 u x = x := by
  funext bi ti i
  simp [dropout, (hu bi ti i).not_lt]

/-- With `eps = 0`, layer normalization is invariant under doubling the
input (the scale cancels between the centered value and the standard
deviation; a zero-variance position maps to the affine bias on both
sides, division by zero being 0). -/
theorem layerNorm_double {b t e : ℕ} (ln : LNParams e) (h : ln.eps = 0)
    (x : Tensor3 b t e) : layerNorm ln (addT x x) = layerNorm ln x := by
  funext bi ti i
  unfold layerNorm addT
  have hS : (∑ k, (x bi ti k + x bi ti k)) = 2 * ∑ k, x bi ti k := by
    rw [Finset.sum_add_distrib, two_mul]
  simp only [h, hS]
  have hterm : ∀ k : Fin e,
      x bi ti k + x bi ti k - 2 * (∑ j, x bi ti j) / e =
        2 * (x bi ti k - (∑ j, x bi ti j) / e) := by
    intro k
    ring
  simp only [hterm]
  have hvar : (∑ k, (2 * (x bi ti k - (∑ j, x bi ti j) / e)) ^ 2) =
      4 * ∑ k, (x bi ti k - (∑ j, x bi ti j) / e) ^ 2 := by
    rw [Finset.mul_sum]
    exact Finset.sum_congr rfl fun k _ => by ring
  rw [hvar]
  have h4 : (4 : ℝ) * (∑ k, (x bi ti k - (∑ j, x bi ti j) / e) ^ 2) / e + 0 =
      4 * ((∑ k, (x bi ti k - (∑ j, x bi ti j) / e) ^ 2) / e + 0) := by
    ring
  rw [h4, Real.sqrt_mul (by norm_num : (0 : ℝ) ≤ 4),
    show Real.sqrt 4 = 2 by
      rw [show (4 : ℝ) = 2 ^ 2 by norm_num,
        Real.sqrt_sq (by norm_num : (0 : ℝ) ≤ 2)],
    mul_div_mul_left _ _ (two_ne_zero)]

/-- C6 amended: if the weights make the attention sublayer and the
feed-forward sublayer identity functions, the drop probability is 0, and
the two layer norms have `eps = 0` (pure zero-mean, unit-variance
standardization with affine rescale), then the block computes the twice-
normalized input.  With the library default `eps = 1e-5` the reduction
fails (see the counterexample). -/
theorem block_identity_sublayers_twice_normalize {b t emb heads ffMult : ℕ}
    (P : TBParams emb heads ffMult) (u1 u2 x : Tensor3 b t emb)
    (hAtt : ∀ y : Tensor3 b t emb, SelfAttention.forward P.attention y = y)
    (hFF : ∀ y : Tensor3 b t emb, TransformerBlock.ff P y = y)
    (h1 : P.norm1.eps = 0) (h2 : P.norm2.eps = 0) (hp : P.dropoutP = 0)
    (hu1 : ∀ bi ti i, 0 ≤ u1 bi ti i) (hu2 : ∀ bi ti i, 0 ≤ u2 bi ti i) :
    TransformerBlock.forward P u1 u2 x =
      layerNorm P.norm2 (layerNorm P.norm1 x) := by
  show dropout P.dropoutP u2 _ = _
  rw [hp, hAtt x, dropout_zero u1 _ hu1, layerNorm_double P.norm1 h1 x, hFF,
    layerNorm_double P.norm2 h2, dropout_zero u2 _ hu2]

/-- `relu(a) - relu(-a) = a`: the two-sided rectifier trick realizing the
identity through the feed-forward sublayer. -/
theorem reluDiff (a : ℝ) : max a 0 - max (-a) 0 = a := by
  rcases le_total 0 a with h | h
  · rw [max_eq_left h, max_eq_right (neg_nonpos.mpr h)]
    ring
  · rw [max_eq_right h, max_eq_left (neg_nonneg.mpr h)]
    ring

/-- On length-1 sequences, `saId` (identity weights, one head, width 2,
no mask) is the identity: the single attention weight is
`exp(s)/exp(s) = 1`. -/
theorem saId_forward (y : Tensor3 1 1 2) :
    SelfAttention.forward saId y = y := by
  have hsum2 : ∀ f : Fin (1 * 2) → ℝ, (∑ i, f i) = f 0 + f 1 :=
    fun f => Fin.sum_univ_two f
  have hproj : ∀ (ti : Fin 1) (i : Fin 2),
      heads4 idW21 y 0 0 ti i = y 0 ti i := by
    intro ti i
    unfold heads4
    rw [Fin.sum_univ_two]
    fin_cases i <;> simp [idW21, headIdx]
  have hweight : attWeights saId y 0 0 0 0 = 1 := by
    unfold attWeights softmaxRow
    rw [Fin.sum_univ_one]
    have hmd : maskedDot saId y 0 0 0 0 = some (rawDot saId y 0 0 0 0) := by
      simp [maskedDot, saId]
    rw [hmd]
    exact div_self (Real.exp_ne_zero _)
  have hout : ∀ k : Fin 2, attOut saId y 0 0 0 k = y 0 0 k := by
    intro k
    unfold attOut
    rw [Fin.sum_univ_one, hweight, one_mul]
    exact hproj 0 k
  funext bi ti o
  obtain rfl : bi = 0 := Subsingleton.elim bi 0
  obtain rfl : ti = 0 := Subsingleton.elim ti 0
  show (∑ f, saId.unifyW o f * mergeHeads (attOut saId y) 0 0 f) +
      saId.unifyB o = y 0 0 o
  rw [hsum2]
  simp only [mergeHeads]
  rw [show Fin.divNat (0 : Fin (1 * 2)) = (0 : Fin 1) from rfl,
    show Fin.divNat (1 : Fin (1 * 2)) = (0 : Fin 1) from rfl,
    show Fin.modNat (0 : Fin (1 * 2)) = (0 : Fin 2) from rfl,
    show Fin.modNat (1 : Fin (1 * 2)) = (1 : Fin 2) from rfl,
    hout 0, hout 1]
  fin_cases o <;> simp [saId, idW12]

/-- The feed-forward sublayer of `pId` is the identity:
`relu(x) - relu(-x) = x` realized through hidden width 8. -/
theorem pId_ff_identity (eps : ℝ) (y : Tensor3 1 1 2) :
    TransformerBlock.ff (pId eps) y = y := by
  have hsum8 : ∀ f : Fin (4 * 2) → ℝ,
      (∑ i, f i) = f 0 + f 1 + f 2 + f 3 + f 4 + f 5 + f 6 + f 7 :=
    fun f => Fin.sum_univ_eight f
  funext bi ti o
  obtain rfl : bi = 0 := Subsingleton.elim bi 0
  obtain rfl : ti = 0 := Subsingleton.elim ti 0
  show (∑ f, (pId eps).ff2W o f *
        relu3 (linearBias (pId eps).ff1W (pId eps).ff1B y) 0 0 f) +
      (pId eps).ff2B o = y 0 0 o
  rw [hsum8]
  simp only [pId, relu3, linearBias]
  have v3 : ((3 : Fin (4 * 2)) : ℕ) = 3 := rfl
  have v4 : ((4 : Fin (4 * 2)) : ℕ) = 4 := rfl
  have v5 : ((5 : Fin (4 * 2)) : ℕ) = 5 := rfl
  have v6 : ((6 : Fin (4 * 2)) : ℕ) = 6 := rfl
  have v7 : ((7 : Fin (4 * 2)) : ℕ) = 7 := rfl
  fin_cases o <;>
    simp [ffIdW1, ffIdW2, Fin.sum_univ_two, v3, v4, v5, v6, v7] <;>
    [linarith [reluDiff (y 0 0 0)]; linarith [reluDiff (y 0 0 1)]]

/-- Witness for the amended C6: width 2, one head, identity sublayers,
`eps = 0`, drop probability 0 — the block output is the twice-normalized
input. -/
theorem block_identity_witness :
    (∀ y : Tensor3 1 1 2, SelfAttention.forward (pId 0).attention y = y) ∧
      (∀ y : Tensor3 1 1 2, TransformerBlock.ff (pId 0) y = y) ∧
      (pId 0).norm1.eps = 0 ∧ (pId 0).norm2.eps = 0 ∧
      (pId 0).dropoutP = 0 ∧
      TransformerBlock.forward (pId 0) (tZero 1 1 2) (tZero 1 1 2)
          (vecPM 1) =
        layerNorm (pId 0).norm2 (layerNorm (pId 0).norm1 (vecPM 1)) :=
  ⟨saId_forward, pId_ff_identity 0, rfl, rfl, rfl,
    block_identity_sublayers_twice_normalize (pId 0) (tZero 1 1 2)
      (tZero 1 1 2) (vecPM 1) saId_forward (pId_ff_identity 0) rfl rfl rfl
      (fun _ _ _ => le_refl 0) (fun _ _ _ => le_refl 0)⟩

/-- Layer normalization with unit weight and zero bias sends the
`(a, -a)` feature vector to `(s, -s)` with `s = a / sqrt(a^2 + eps)`:
the mean is 0 and the biased variance is `a^2`. -/
theorem ln_vecPM (eps a : ℝ) :
    layerNorm (lnPlain 2 eps) (vecPM a) =
      vecPM (a / Real.sqrt (a ^ 2 + eps)) := by
  funext bi ti i
  unfold layerNorm lnPlain vecPM
  simp only [Fin.sum_univ_two]
  fin_cases i <;> norm_num <;> ring_nf

/-- Doubling the `(a, -a)` feature vector. -/
theorem addT_vecPM (a : ℝ) : addT (vecPM a) (vecPM a) = vecPM (2 * a) := by
  funext bi ti i
  unfold addT vecPM
  fin_cases i <;> norm_num <;> ring

/-- With the default `eps = 1e-5`, the twice-doubled-and-normalized value
differs from the twice-normalized value: comparing squares reduces to the
rational inequality `16 / (16 + eps·(4 + eps)) ≠ 1 / (1 + eps·(1 + eps))`,
which fails only at `eps = 0`. -/
theorem cex_scalar_ne :
    2 * (2 / Real.sqrt (2 ^ 2 + layerNormDefaultEps)) /
        Real.sqrt ((2 * (2 / Real.sqrt (2 ^ 2 + layerNormDefaultEps))) ^ 2 +
          layerNormDefaultEps) ≠
      1 / Real.sqrt (1 ^ 2 + layerNormDefaultEps) /
        Real.sqrt ((1 / Real.sqrt (1 ^ 2 + layerNormDefaultEps)) ^ 2 +
          layerNormDefaultEps) := by
  have hε : (0 : ℝ) < layerNormDefaultEps := by
    norm_num [layerNormDefaultEps]
  have h4 : (0 : ℝ) < 2 ^ 2 + layerNormDefaultEps := by positivity
  have h1 : (0 : ℝ) < 1 ^ 2 + layerNormDefaultEps := by positivity
  set ε := layerNormDefaultEps with hεdef
  set c := 2 / Real.sqrt (2 ^ 2 + ε) with hcdef
  set d := 1 / Real.sqrt (1 ^ 2 + ε) with hddef
  have hc2 : c ^ 2 = 4 / (4 + ε) := by
    rw [hcdef, div_pow, Real.sq_sqrt h4.le]
    norm_num
  have hd2 : d ^ 2 = 1 / (1 + ε) := by
    rw [hddef, div_pow, Real.sq_sqrt h1.le]
    norm_num
  intro heq
  have hA2 : (2 * c / Real.sqrt ((2 * c) ^ 2 + ε)) ^ 2 =
      4 * c ^ 2 / (4 * c ^ 2 + ε) := by
    rw [div_pow, Real.sq_sqrt (by positivity)]
    congr 1
    · ring
    · congr 1
      ring
  have hB2 : (d / Real.sqrt (d ^ 2 + ε)) ^ 2 = d ^ 2 / (d ^ 2 + ε) := by
    rw [div_pow, Real.sq_sqrt (by positivity)]
  have hsq : 4 * c ^ 2 / (4 * c ^ 2 + ε) = d ^ 2 / (d ^ 2 + ε) := by
    rw [← hA2, ← hB2, heq]
  rw [hc2, hd2] at hsq
  rw [hεdef] at hsq
  norm_num [layerNormDefaultEps] at hsq

/-- With identity sublayers and drop probability 0 the block reduces to
normalizing the doubled input twice (no assumption on `eps`). -/
theorem block_reduce {b t emb heads ffMult : ℕ}
    (P : TBParams emb heads ffMult) (u1 u2 x : Tensor3 b t emb)
    (hAtt : ∀ y : Tensor3 b t emb, SelfAttention.forward P.attention y = y)
    (hFF : ∀ y : Tensor3 b t emb, TransformerBlock.ff P y = y)
    (hp : P.dropoutP = 0) (hu1 : ∀ bi ti i, 0 ≤ u1 bi ti i)
    (hu2 : ∀ bi ti i, 0 ≤ u2 bi ti i) :
    TransformerBlock.forward P u1 u2 x =
      layerNorm P.norm2
        (addT (layerNorm P.norm1 (addT x x))
          (layerNorm P.norm1 (addT x x))) := by
  show dropout P.dropoutP u2 _ = _
  rw [hp, hAtt x, dropout_zero u1 _ hu1, hFF, dropout_zero u2 _ hu2]

/-- C6 counterexample: with the library default `eps = 1e-5` in the layer
norms, identity attention and feed-forward sublayers (width 2, one head,
length-1 sequence), zero biases and drop probability 0, the block output
on the input `(1, -1)` is NOT the twice-normalized input: the claimed
reduction relies on `Normalize(2X) = Normalize(X)`, which fails for
`eps > 0`. -/
theorem block_identity_fails_at_default_eps :
    (∀ y : Tensor3 1 1 2,
        SelfAttention.forward (pId layerNormDefaultEps).attention y = y) ∧
      (∀ y : Tensor3 1 1 2,
        TransformerBlock.ff (pId layerNormDefaultEps) y = y) ∧
      (pId layerNormDefaultEps).dropoutP = 0 ∧
      TransformerBlock.forward (pId layerNormDefaultEps) (tZero 1 1 2)
          (tZero 1 1 2) (vecPM 1) ≠
        layerNorm (pId layerNormDefaultEps).norm2
          (layerNorm (pId layerNormDefaultEps).norm1 (vecPM 1)) := by
  refine ⟨saId_forward, pId_ff_identity layerNormDefaultEps, rfl, ?_⟩
  have hu : ∀ (bi ti : Fin 1) (i : Fin 2), (0 : ℝ) ≤ tZero 1 1 2 bi ti i :=
    fun _ _ _ => le_refl 0
  rw [block_reduce (pId layerNormDefaultEps) _ _ _ saId_forward
    (pId_ff_identity layerNormDefaultEps) rfl hu hu]
  have hn1 : (pId layerNormDefaultEps).norm1 =
      lnPlain 2 layerNormDefaultEps := rfl
  have hn2 : (pId layerNormDefaultEps).norm2 =
      lnPlain 2 layerNormDefaultEps := rfl
  rw [hn1, hn2, addT_vecPM 1, show (2 : ℝ) * 1 = 2 by norm_num,
    ln_vecPM layerNormDefaultEps 2, addT_vecPM _,
    ln_vecPM layerNormDefaultEps _, ln_vecPM layerNormDefaultEps 1,
    ln_vecPM layerNormDefaultEps _]
  intro heq
  have h0 := congrFun (congrFun (congrFun heq 0) 0) (0 : Fin 2)
  simp only [vecPM, Fin.val_zero, if_pos rfl] at h0
  exact cex_scalar_ne h0

end Former
